import Mathlib

/-!
Verification of the WaveGrad data pipeline (`data.py`).

Waveforms are modelled as lists of rationals (sample amplitudes); machine
integers are `Nat`.  Randomness sources (`np.random.randint`,
`np.random.choice`) are external library calls; they are embedded by their
documented support and probability mass, with the drawn value passed in
explicitly.  The `torchaudio.transforms.Spectrogram` sub-module is an external
collaborator as well; it is embedded as an abstract frame-producing function
together with its documented frame-count contract.
-/

namespace WaveGrad

/-- Support of `np.random.randint(low, high)`: per the numpy documentation the
draw is from the half-open integer range `[low, high)`. -/
def randintSupport (low high r : ℕ) : Prop := low ≤ r ∧ r < high

instance (low high r : ℕ) : Decidable (randintSupport low high r) :=
  inferInstanceAs (Decidable (low ≤ r ∧ r < high))

/-- Probability mass of `np.random.randint(0, high)` at `r`: the draw is
uniform over the half-open range `[0, high)`. -/
def randintPMF (high r : ℕ) : ℚ := if r < high then 1 / (high : ℚ) else 0

/-- The aligned length computed in `AudioDataset.load_audio_to_torch` for
evaluation mode: the original length plus the pad `p` satisfies
`(L // hop_length + 1) * hop_length`. -/
def alignedLength (L hop : ℕ) : ℕ := (L / hop + 1) * hop

/-- `AudioDataset.load_audio_to_torch` in evaluation mode (`not self.training`):
right-pad the waveform with `p = (L // hop + 1) * hop - L` zeros. -/
def load_audio_eval (audio : List ℚ) (hop : ℕ) : List ℚ :=
  audio ++ List.replicate (alignedLength audio.length hop - audio.length) 0

/-- Crop offsets reachable in the training branch of `AudioDataset.__getitem__`:
the offset is drawn by `np.random.randint(0, max_audio_start)` with
`max_audio_start = L - segment_length`. -/
def cropOffsetPossible (L seg r : ℕ) : Prop := randintSupport 0 (L - seg) r

instance (L seg r : ℕ) : Decidable (cropOffsetPossible L seg r) :=
  inferInstanceAs (Decidable (randintSupport 0 (L - seg) r))

/-- The training branch of `AudioDataset.__getitem__`, after the sample-rate
assertion: crop a `segment_length` slice at the drawn offset `r` when the
audio is longer than `segment_length`, otherwise zero-pad on the right. -/
def getitem_train (audio : List ℚ) (seg r : ℕ) : List ℚ :=
  if seg < audio.length then (audio.drop r).take seg
  else audio ++ List.replicate (seg - audio.length) 0

/-- `AudioDataset.__getitem__`: load the audio (evaluation mode pads it to the
aligned length), then assert the file sample rate equals the configured one
(`none` models the `AssertionError`), then either return the loaded audio
(evaluation) or a training segment using the random draw `r`. -/
def getitem (training : Bool) (config_sr seg hop : ℕ) (audio : List ℚ)
    (file_sr r : ℕ) : Option (List ℚ) :=
  let loaded := if training then audio else load_audio_eval audio hop
  if file_sr = config_sr then
    if training then some (getitem_train loaded seg r) else some loaded
  else none

/-- `np.random.choice(range(n), size=k, replace=False)`: per the numpy
documentation the draw is a length-`k` duplicate-free list of indices below
`n`; a `ValueError` is raised exactly when no such draw exists.  The intended
draw is passed in and validated against the support. -/
def choiceNoReplace (n k : ℕ) (draw : List ℕ) : Option (List ℕ) :=
  if draw.length = k ∧ draw.Nodup ∧ ∀ i ∈ draw, i < n then some draw else none

/-- `AudioDataset.sample_test_batch`: draw `k` distinct indices without
replacement and return the processed items in draw order.  `item` is the
per-index processing `self.__getitem__`. -/
def sample_test_batch (item : ℕ → List ℚ) (n k : ℕ) (draw : List ℕ) :
    Option (List (List ℚ)) :=
  (choiceNoReplace n k draw).map (fun idx => idx.map item)

/-- The aligned length as claim C3 words it: the smallest multiple of
`hop_length` that is ≥ L, plus one additional `hop_length`. -/
def claimAlignedLength (L hop : ℕ) : ℕ := (L + hop - 1) / hop * hop + hop

/-- A concrete five-sample waveform used as a counterexample input. -/
def sampleFive : List ℚ := [1, 1, 1, 1, 1]

/-- A concrete ten-sample waveform used as a witness input. -/
def sampleTen : List ℚ := [1, 2, 3, 4, 5, 6, 7, 8, 9, 10]

theorem alignedLength_gt (L hop : ℕ) (hhop : 0 < hop) : L < alignedLength L hop := by
  unfold alignedLength
  have h1 := Nat.div_add_mod L hop
  have h2 := Nat.mod_lt L hhop
  have h3 : (L / hop + 1) * hop = hop * (L / hop) + hop := by ring
  omega

theorem length_load_audio_eval (audio : List ℚ) (hop : ℕ) (hhop : 0 < hop) :
    (load_audio_eval audio hop).length = alignedLength audio.length hop := by
  have h := alignedLength_gt audio.length hop hhop
  simp [load_audio_eval]
  omega

/-- C2: evaluation-mode loading pads to `(L // hop + 1) * hop`, a multiple of
`hop_length` that is ≥ L, and the first L samples are the original waveform. -/
theorem eval_padding_aligned (audio : List ℚ) (hop : ℕ) (hhop : 0 < hop) :
    (load_audio_eval audio hop).length = (audio.length / hop + 1) * hop ∧
    hop ∣ (load_audio_eval audio hop).length ∧
    audio.length ≤ (load_audio_eval audio hop).length ∧
    (load_audio_eval audio hop).take audio.length = audio := by
  have hlen := length_load_audio_eval audio hop hhop
  have hgt := alignedLength_gt audio.length hop hhop
  refine ⟨hlen, ?_, ?_, ?_⟩
  · rw [hlen]; exact dvd_mul_left hop (audio.length / hop + 1)
  · omega
  · unfold load_audio_eval
    exact List.take_left audio _

/-- C2 witness: a three-sample waveform with hop length 2 pads to length 4. -/
theorem eval_padding_aligned_witness :
    (load_audio_eval [1, 2, 3] 2).length = (3 / 2 + 1) * 2 ∧
    2 ∣ (load_audio_eval [1, 2, 3] 2).length ∧
    3 ≤ (load_audio_eval [1, 2, 3] 2).length ∧
    (load_audio_eval [1, 2, 3] 2).take 3 = [1, 2, 3] := by
  have h := eval_padding_aligned [1, 2, 3] 2 (by decide)
  simp only [List.length_cons, List.length_nil] at h
  exact h

/-- C3 counterexample: for a five-sample waveform and hop length 4 the code
pads to length 8, while the claimed length — smallest multiple of hop ≥ 5,
plus one extra hop — is 12. -/
theorem eval_padding_claim_cex :
    (load_audio_eval sampleFive 4).length = 8 ∧
    claimAlignedLength sampleFive.length 4 = 12 ∧
    (load_audio_eval sampleFive 4).length ≠ claimAlignedLength sampleFive.length 4 := by
  refine ⟨?_, by rfl, by simp [load_audio_eval, alignedLength, claimAlignedLength, sampleFive]⟩
  rfl

/-- C3 amended: the padded length is the smallest multiple of `hop_length`
that is strictly greater than L (so only when L is itself a multiple of
`hop_length` does it equal L plus one extra hop). -/
theorem eval_padding_minimal (audio : List ℚ) (hop : ℕ) (hhop : 0 < hop) :
    hop ∣ (load_audio_eval audio hop).length ∧
    audio.length < (load_audio_eval audio hop).length ∧
    ∀ m, hop ∣ m → audio.length < m → (load_audio_eval audio hop).length ≤ m := by
  have hlen := length_load_audio_eval audio hop hhop
  have hgt := alignedLength_gt audio.length hop hhop
  refine ⟨?_, by omega, ?_⟩
  · rw [hlen]; exact dvd_mul_left hop (audio.length / hop + 1)
  · rintro m ⟨c, rfl⟩ hm
    rw [hlen]
    unfold alignedLength
    have hdiv : audio.length / hop < c := by
      rw [Nat.div_lt_iff_lt_mul hhop]
      have hcomm : c * hop = hop * c := Nat.mul_comm c hop
      omega
    calc (audio.length / hop + 1) * hop ≤ c * hop := by
          exact Nat.mul_le_mul_right hop hdiv
      _ = hop * c := Nat.mul_comm c hop

/-- C3 amended witness: with five samples and hop 4 the padded length 8 is a
multiple of 4, exceeds 5, and is the least such multiple. -/
theorem eval_padding_minimal_witness :
    4 ∣ (load_audio_eval sampleFive 4).length ∧
    sampleFive.length < (load_audio_eval sampleFive 4).length ∧
    ∀ m, 4 ∣ m → sampleFive.length < m → (load_audio_eval sampleFive 4).length ≤ m :=
  eval_padding_minimal sampleFive 4 (by decide)

/-- C1 counterexample: for a 10-sample waveform and `segment_length = 8` the
offset `10 - 8 = 2` lies in the claimed inclusive range `[0, 2]`, yet it is
not a possible outcome of `np.random.randint(0, 2)` and its probability mass
is 0, so not every offset of the inclusive range can be drawn. -/
theorem crop_offset_cex :
    8 < 10 ∧ ¬ cropOffsetPossible 10 8 (10 - 8) ∧ randintPMF (10 - 8) 2 = 0 := by
  refine ⟨by decide, by decide, ?_⟩
  norm_num [randintPMF]

/-- C1 amended: for audio longer than `segment_length` the crop offset is
drawn uniformly from the half-open range `[0, L - seg)`: exactly the offsets
strictly below `L - seg` are possible, each with probability `1 / (L - seg)`,
the endpoint `L - seg` itself is never drawn, and the returned item is the
contiguous `segment_length`-sample slice starting at the drawn offset. -/
theorem crop_offset_uniform_halfopen (audio : List ℚ) (seg : ℕ)
    (hL : seg < audio.length) :
    (∀ r, cropOffsetPossible audio.length seg r ↔ r < audio.length - seg) ∧
    (∀ r, r < audio.length - seg →
      randintPMF (audio.length - seg) r = 1 / ((audio.length - seg : ℕ) : ℚ)) ∧
    ¬ cropOffsetPossible audio.length seg (audio.length - seg) ∧
    ∀ r, cropOffsetPossible audio.length seg r →
      getitem_train audio seg r = (audio.drop r).take seg ∧
      (getitem_train audio seg r).length = seg ∧
      ∀ i, i < seg → (getitem_train audio seg r)[i]? = audio[r + i]? := by
  refine ⟨?_, ?_, ?_, ?_⟩
  · intro r
    simp [cropOffsetPossible, randintSupport]
  · intro r hr
    simp [randintPMF, hr]
  · simp [cropOffsetPossible, randintSupport]
  · intro r hr
    have hr2 : r < audio.length - seg := hr.2
    have heq : getitem_train audio seg r = (audio.drop r).take seg := by
      simp [getitem_train, hL]
    refine ⟨heq, ?_, ?_⟩
    · rw [heq]
      simp
      omega
    · intro i hi
      rw [heq, List.getElem?_take_of_lt hi, List.getElem?_drop]

/-- C1 amended witness: for a 10-sample waveform and segment length 8, offset
1 is possible with probability 1/2, offset 2 is not, and the drawn slice at
offset 1 is samples 1 through 8. -/
theorem crop_offset_uniform_halfopen_witness :
    (∀ r, cropOffsetPossible (sampleTen.length) 8 r ↔ r < sampleTen.length - 8) ∧
    (∀ r, r < sampleTen.length - 8 →
      randintPMF (sampleTen.length - 8) r = 1 / ((sampleTen.length - 8 : ℕ) : ℚ)) ∧
    ¬ cropOffsetPossible sampleTen.length 8 (sampleTen.length - 8) ∧
    ∀ r, cropOffsetPossible sampleTen.length 8 r →
      getitem_train sampleTen 8 r = (sampleTen.drop r).take 8 ∧
      (getitem_train sampleTen 8 r).length = 8 ∧
      ∀ i, i < 8 → (getitem_train sampleTen 8 r)[i]? = sampleTen[r + i]? :=
  crop_offset_uniform_halfopen sampleTen 8 (by decide)

/-- C4: the training-mode item always has length exactly `segment_length`;
longer sources yield the contiguous slice at the drawn offset, shorter or
equal ones the source right-padded with zeros. -/
theorem segment_shape (audio : List ℚ) (seg r : ℕ)
    (hr : seg < audio.length → r < audio.length - seg) :
    (getitem_train audio seg r).length = seg ∧
    (seg < audio.length → getitem_train audio seg r = (audio.drop r).take seg) ∧
    (audio.length ≤ seg →
      getitem_train audio seg r = audio ++ List.replicate (seg - audio.length) 0) := by
  by_cases h : seg < audio.length
  · have hr2 := hr h
    refine ⟨?_, fun _ => by simp [getitem_train, h], fun hle => by omega⟩
    simp [getitem_train, h]
    omega
  · refine ⟨?_, fun hlt => absurd hlt h, fun _ => by simp [getitem_train, h]⟩
    simp [getitem_train, h]
    omega

/-- C4 witness: a three-sample waveform cropped to 2 samples at offset 0, and
the same theorem instantiated where padding happens implicitly via length. -/
theorem segment_shape_witness :
    (getitem_train [1, 2, 3] 2 0).length = 2 ∧
    (2 < 3 → getitem_train [1, 2, 3] 2 0 = (List.drop 0 [1, 2, 3]).take 2) ∧
    (3 ≤ 2 → getitem_train [1, 2, 3] 2 0 = [1, 2, 3] ++ List.replicate (2 - 3) 0) := by
  have h := segment_shape [1, 2, 3] 2 0 (by intro _; decide)
  simpa using h

/-- C6: with a mismatched file sample rate `__getitem__` fails (the assertion
raises) before returning any item; with matching rates it succeeds, and in
evaluation mode it returns exactly the zero-padded original waveform, never a
resampled one. -/
theorem sample_rate_assert (training : Bool) (csr seg hop : ℕ) (audio : List ℚ)
    (fsr r : ℕ) :
    (fsr ≠ csr → getitem training csr seg hop audio fsr r = none) ∧
    (fsr = csr → (getitem training csr seg hop audio fsr r).isSome = true) ∧
    (fsr = csr → training = false →
      getitem training csr seg hop audio fsr r = some (load_audio_eval audio hop)) := by
  refine ⟨fun h => by simp [getitem, h], fun h => ?_, fun h ht => by simp [getitem, h, ht]⟩
  cases training <;> simp [getitem, h]

/-- C6 witness: a 44100 Hz file against a 22050 Hz config fails; the matching
rate succeeds and returns the padded waveform. -/
theorem sample_rate_assert_witness :
    getitem false 22050 0 2 sampleFive 44100 0 = none ∧
    (getitem false 22050 0 2 sampleFive 22050 0).isSome = true ∧
    getitem false 22050 0 2 sampleFive 22050 0 = some (load_audio_eval sampleFive 2) := by
  have h1 := sample_rate_assert false 22050 0 2 sampleFive 44100 0
  have h2 := sample_rate_assert false 22050 0 2 sampleFive 22050 0
  exact ⟨h1.1 (by decide), h2.2.1 rfl, h2.2.2 rfl rfl⟩

theorem nodup_bounded_length_le (l : List ℕ) (n : ℕ) (hnd : l.Nodup)
    (hb : ∀ i ∈ l, i < n) : l.length ≤ n := by
  have hsub : l.toFinset ⊆ Finset.range n := by
    intro i hi
    rw [Finset.mem_range]
    exact hb i (List.mem_toFinset.mp hi)
  have hcard := Finset.card_le_card hsub
  rwa [List.toFinset_card_of_nodup hnd, Finset.card_range] at hcard

/-- C7: when `k ≤ n` a successful draw exists and every successful call
returns exactly `k` items taken at `k` pairwise-distinct indices below `n`,
in draw order; when `k > n` every call fails (no draw can satisfy the
without-replacement support). -/
theorem test_batch_distinct (n k : ℕ) (item : ℕ → List ℚ) :
    (k ≤ n → sample_test_batch item n k (List.range k) =
      some ((List.range k).map item)) ∧
    (∀ draw batch, sample_test_batch item n k draw = some batch →
      batch.length = k ∧ draw.length = k ∧ draw.Nodup ∧ (∀ i ∈ draw, i < n) ∧
      batch = draw.map item) ∧
    (n < k → ∀ draw, sample_test_batch item n k draw = none) := by
  refine ⟨?_, ?_, ?_⟩
  · intro hk
    have hcond : (List.range k).length = k ∧ (List.range k).Nodup ∧
        ∀ i ∈ List.range k, i < n :=
      ⟨List.length_range k, List.nodup_range k,
        fun i hi => lt_of_lt_of_le (List.mem_range.mp hi) hk⟩
    unfold sample_test_batch choiceNoReplace
    rw [if_pos hcond]
    rfl
  · intro draw batch h
    unfold sample_test_batch choiceNoReplace at h
    by_cases hcond : draw.length = k ∧ draw.Nodup ∧ ∀ i ∈ draw, i < n
    · rw [if_pos hcond] at h
      have hmap : batch = draw.map item := by
        have h2 : some (draw.map item) = some batch := h
        exact (Option.some_inj.mp h2).symm
      obtain ⟨hlen, hnd, hlt⟩ := hcond
      refine ⟨?_, hlen, hnd, hlt, hmap⟩
      rw [hmap]
      simp [hlen]
    · rw [if_neg hcond] at h
      simp at h
  · intro hnk draw
    unfold sample_test_batch choiceNoReplace
    rw [if_neg ?_]
    · rfl
    · rintro ⟨hlen, hnd, hlt⟩
      have := nodup_bounded_length_le draw n hnd hlt
      omega

/-- C7 witness: from a dataset of size 3, a batch of size 2 via the draw
[0, 1] succeeds with 2 items, and every draw for a batch of size 4 fails. -/
theorem test_batch_distinct_witness :
    (sample_test_batch (fun _ => sampleFive) 3 2 (List.range 2) =
      some ((List.range 2).map fun _ => sampleFive)) ∧
    sample_test_batch (fun _ => sampleFive) 3 4 [0, 1, 2, 3] = none := by
  have h1 := test_batch_distinct 3 2 (fun _ => sampleFive)
  have h2 := test_batch_distinct 3 4 (fun _ => sampleFive)
  exact ⟨h1.1 (by decide), h2.2.2 (by decide) [0, 1, 2, 3]⟩

/-- Dot product of two coefficient lists (a row of the mel filterbank against
a spectral column). -/
def dot (u v : List ℚ) : ℚ := (List.zipWith (fun a b => a * b) u v).sum

/-- Matrix–vector product `A @ v` with `A` given as a list of rows: the core
of the `mel_basis @ spc` projection applied to one spectral frame. -/
def matVec (A : List (List ℚ)) (v : List ℚ) : List ℚ := A.map (fun row => dot row v)

/-- State of a `MelSpectrogramFixed` module after `__init__`: the clamp floor
`eps`, the filterbank buffer `mel_basis` (rows), and the `Spectrogram`
sub-module, an external collaborator embedded as a function from audio to the
list of spectral frames (columns of magnitudes). -/
structure MelModule where
  eps : ℚ
  mel_basis : List (List ℚ)
  stft : List ℚ → List (List ℚ)

/-- Frame-count contract of `torchaudio.transforms.Spectrogram` (external, not
in the repository): with the default centered analysis, a length-`L` input
yields `L // hop_length + 1` frames. -/
def stftFrameContract (stft : List ℚ → List (List ℚ)) (hop : ℕ) : Prop :=
  ∀ audio : List ℚ, (stft audio).length = audio.length / hop + 1

/-- `MelSpectrogramFixed.forward`: take spectral magnitudes, project each
frame through `mel_basis`, clamp at `eps`, apply `log10` (passed in as the
embedding of the external `torch.log10`), and optionally drop the last frame.
The module state is returned alongside the output: `forward` never writes it. -/
def MelModule.forward (m : MelModule) (log10 : ℚ → ℚ) (audio : List ℚ)
    (remove_last : Bool) : List (List ℚ) × MelModule :=
  let x_stft := m.stft audio
  let spc := x_stft.map (fun c => c.map (fun v => |v|))
  let mel := spc.map (fun c => (matVec m.mel_basis c).map (fun v => log10 (max v m.eps)))
  (if remove_last then mel.dropLast else mel, m)

/-- A call of `forward` that omits the `remove_last` argument: the Python
signature declares the default `remove_last=True`. -/
def MelModule.forwardDefault (m : MelModule) (log10 : ℚ → ℚ)
    (audio : List ℚ) : List (List ℚ) × MelModule :=
  m.forward log10 audio true

theorem mel_length_full (m : MelModule) (log10 : ℚ → ℚ) (audio : List ℚ) :
    ((m.forward log10 audio false).1).length = (m.stft audio).length := by
  simp [MelModule.forward]

/-- C5: on an aligned (evaluation-padded) waveform of length A the spectral
transform emits `A / hop + 1` frames; with the last-frame drop the output has
exactly `A / hop` frames — so `hop` times the frame count recovers A — and it
is the full output with only its final frame removed. -/
theorem mel_frame_count (m : MelModule) (log10 : ℚ → ℚ) (hop : ℕ) (raw : List ℚ)
    (hhop : 0 < hop) (hstft : stftFrameContract m.stft hop) :
    ((m.forward log10 (load_audio_eval raw hop) false).1).length =
      (load_audio_eval raw hop).length / hop + 1 ∧
    ((m.forward log10 (load_audio_eval raw hop) true).1).length =
      (load_audio_eval raw hop).length / hop ∧
    (m.forward log10 (load_audio_eval raw hop) true).1 =
      ((m.forward log10 (load_audio_eval raw hop) false).1).dropLast ∧
    hop * ((m.forward log10 (load_audio_eval raw hop) true).1).length =
      (load_audio_eval raw hop).length := by
  have hfull : ((m.forward log10 (load_audio_eval raw hop) false).1).length =
      (load_audio_eval raw hop).length / hop + 1 := by
    rw [mel_length_full, hstft]
  have hdrop : (m.forward log10 (load_audio_eval raw hop) true).1 =
      ((m.forward log10 (load_audio_eval raw hop) false).1).dropLast := by
    simp [MelModule.forward]
  have hlen2 : ((m.forward log10 (load_audio_eval raw hop) true).1).length =
      (load_audio_eval raw hop).length / hop := by
    rw [hdrop, List.length_dropLast, hfull]
    exact Nat.add_sub_cancel _ _
  refine ⟨hfull, hlen2, hdrop, ?_⟩
  rw [hlen2, length_load_audio_eval raw hop hhop]
  unfold alignedLength
  rw [Nat.mul_div_cancel _ hhop]
  ring

/-- A concrete stft stand-in obeying the frame-count contract: frame t of a
length-L input is a single constant magnitude bin, with L / 2 + 1 frames. -/
def toyStft : List ℚ → List (List ℚ) :=
  fun audio => List.replicate (audio.length / 2 + 1) [1]

/-- A concrete mel module used as witness input. -/
def toyMel : MelModule :=
  { eps := 1 / 10000000000, mel_basis := [[1]], stft := toyStft }

theorem toyStft_contract : stftFrameContract toyMel.stft 2 := by
  intro audio
  simp [toyMel, toyStft]

/-- C5 witness: a three-sample waveform pads to 4 samples; the full output
has 3 frames, the default output 2 = 4 / 2, and 2 * 2 = 4. -/
theorem mel_frame_count_witness :
    ((toyMel.forward id (load_audio_eval [1, 2, 3] 2) false).1).length =
      (load_audio_eval [1, 2, 3] 2).length / 2 + 1 ∧
    ((toyMel.forward id (load_audio_eval [1, 2, 3] 2) true).1).length =
      (load_audio_eval [1, 2, 3] 2).length / 2 ∧
    (toyMel.forward id (load_audio_eval [1, 2, 3] 2) true).1 =
      ((toyMel.forward id (load_audio_eval [1, 2, 3] 2) false).1).dropLast ∧
    2 * ((toyMel.forward id (load_audio_eval [1, 2, 3] 2) true).1).length =
      (load_audio_eval [1, 2, 3] 2).length :=
  mel_frame_count toyMel id 2 [1, 2, 3] (by decide) toyStft_contract

/-- C8: `forward` is pure — it leaves the module state unchanged, and calling
it again on the state returned by the first call, with the same waveform and
flag, reproduces the first output exactly. -/
theorem mel_forward_pure (m : MelModule) (log10 : ℚ → ℚ) (audio : List ℚ)
    (remove_last : Bool) :
    (m.forward log10 audio remove_last).2 = m ∧
    ((m.forward log10 audio remove_last).2.forward log10 audio remove_last).1 =
      (m.forward log10 audio remove_last).1 :=
  ⟨rfl, rfl⟩

/-- C9: every entry of the returned mel spectrogram is `log10` of a value
that was clamped to at least `eps` — so for monotone `log10` every entry is
≥ `log10 eps`, and the argument of `log10` is never below the positive floor
(no `-inf`), even on all-zero input. -/
theorem mel_clamp_floor (m : MelModule) (log10 : ℚ → ℚ) (audio : List ℚ)
    (remove_last : Bool) (hmono : Monotone log10) :
    ∀ col ∈ (m.forward log10 audio remove_last).1, ∀ x ∈ col,
      (∃ v, m.eps ≤ v ∧ x = log10 v) ∧ log10 m.eps ≤ x := by
  intro col hcol x hx
  have hcol2 : col ∈ ((m.stft audio).map (fun c => c.map (fun v => |v|))).map
      (fun c => (matVec m.mel_basis c).map (fun v => log10 (max v m.eps))) := by
    rcases remove_last with _ | _
    · simpa [MelModule.forward] using hcol
    · exact (List.dropLast_sublist _).subset (by simpa [MelModule.forward] using hcol)
  rcases List.mem_map.mp hcol2 with ⟨c, _, hceq⟩
  rw [← hceq] at hx
  rcases List.mem_map.mp hx with ⟨v, _, hveq⟩
  have hfloor : m.eps ≤ max v m.eps := le_max_right v m.eps
  exact ⟨⟨max v m.eps, hfloor, hveq.symm⟩, hveq ▸ hmono hfloor⟩

/-- C9 witness: on the all-zero two-sample waveform with the identity as the
monotone stand-in for log10, the concrete output entry 1 of the first output
column sits above the floor. -/
theorem mel_clamp_floor_witness :
    (∃ v, toyMel.eps ≤ v ∧ (1 : ℚ) = id v) ∧ id toyMel.eps ≤ (1 : ℚ) :=
  mel_clamp_floor toyMel id [0, 0] true (fun _ _ h => h) [1]
    (by norm_num [toyMel, toyStft, MelModule.forward, matVec, dot]) 1
    (by simp)

/-- C10: omitting `remove_last` uses the Python default `True`: the default
call equals the explicit `remove_last=True` call, its output is the full
(`remove_last=False`) output with the final frame dropped, and its frame
count is one less than the full frame count. -/
theorem remove_last_default (m : MelModule) (log10 : ℚ → ℚ) (audio : List ℚ) :
    m.forwardDefault log10 audio = m.forward log10 audio true ∧
    (m.forwardDefault log10 audio).1 = ((m.forward log10 audio false).1).dropLast ∧
    ((m.forwardDefault log10 audio).1).length =
      ((m.forward log10 audio false).1).length - 1 := by
  refine ⟨rfl, by simp [MelModule.forwardDefault, MelModule.forward], ?_⟩
  have hdrop : (m.forwardDefault log10 audio).1 =
      ((m.forward log10 audio false).1).dropLast := by
    simp [MelModule.forwardDefault, MelModule.forward]
  rw [hdrop, List.length_dropLast]

end WaveGrad
